import Mathlib

/-!
Verification of the GFG profile-scraper pipeline
(src/gfg_langchain_falcon.py).

The development shallowly embeds the script:

* JSON documents are the mutual inductive `JVal`/`JArr`/`JObj`; text is
  modelled as `List Char`.  `json_loads` is an executable recursive-descent
  parser modelling Python `json.loads` (numbers are modelled as integers,
  which covers every value the schema constrains; whitespace and escape
  handling follow the Python module), and `dumpsVal` models `json.dump`
  (`ensure_ascii=False`; the `indent=2` pretty-printing whitespace is
  omitted, no claim depends on it).
* `GFGProfile.validate` models `GFGProfile(**parsed)` under pydantic
  defaults: extra keys are ignored, `username` is required, optional
  fields default to `None` / `[]` / an empty dict, and field types are
  checked with the default lax coercions of pydantic v2 (the major
  version the langchain imports of this script resolve to): an integer
  field also accepts a decimal string, coerced to the integer
  (`"5" -> 5`, modelled by `strToInt`), while string fields, list
  elements and the dict field are not coerced (v1 would additionally
  coerce scalars to `str`; that variant is noted where it matters).
  Floats do not arise because JSON numbers are modelled as integers.
* `parse_profile_html` consumes a `Soup` record abstracting the
  BeautifulSoup view of the fetched markup: the stripped texts matched by
  each selector group, in document order, plus the `get_text` visible
  text.  `grab_num` models the case-insensitive leftmost regex search
  `Label[:\s]*([0-9,]+)` followed by `int(group.replace(",", ""))`,
  including the `ValueError` that `int("")` raises on a comma-only group.
* `gfg_to_json` is the pipeline over an environment (per-URL fetch
  outcomes and the opaque model-response text) and an explicit
  file-system cell for the output path.
-/

namespace GFG

/-- Abbreviation turning a string literal into the character-list model of
Python text used throughout. -/
def s2c (s : String) : List Char := s.toList

/-! ## JSON values -/

mutual

/-- A JSON value, as produced by `json.loads`: numbers are modelled as
integers (the schema only constrains integer fields). -/
inductive JVal where
  | jnull
  | jbool (b : Bool)
  | jnum (n : Int)
  | jstr (s : List Char)
  | jarr (items : JArr)
  | jobj (members : JObj)

/-- A JSON array, kept as a bespoke list so that the mutual recursion with
`JVal` stays structural. -/
inductive JArr where
  | anil
  | acons (v : JVal) (rest : JArr)

/-- A JSON object: key/value members in document order.  Duplicate keys are
possible in the surface syntax; lookups take the last occurrence, matching
the Python `dict` built by `json.loads`. -/
inductive JObj where
  | onil
  | ocons (key : List Char) (v : JVal) (rest : JObj)

end

/-- Last-occurrence-wins lookup in a JSON object, the observable behaviour
of the Python `dict` produced by `json.loads`. -/
def JObj.lookLast : JObj → List Char → Option JVal
  | .onil, _ => none
  | .ocons k2 v r, k =>
    match r.lookLast k with
    | some v2 => some v2
    | none => if k2 = k then some v else none

/-- Append one member at the end of an object. -/
def JObj.snoc : JObj → List Char → JVal → JObj
  | .onil, k, v => .ocons k v .onil
  | .ocons k2 v2 r, k, v => .ocons k2 v2 (r.snoc k v)

/-! ## Serialisation, modelling `json.dump(..., ensure_ascii=False)` -/

/-- Character class of JSON whitespace as accepted by `json.loads`. -/
def isJWs (c : Char) : Bool := c = ' ' || c = '\t' || c = '\n' || c = '\r'

/-- Decimal digit test. -/
def isDigitCh (c : Char) : Bool := '0' ≤ c && c ≤ '9'

/-- Numeric value of a decimal digit character. -/
def digitVal (c : Char) : Nat := c.toNat - 48

/-- The decimal digit character for `d < 10`. -/
def digitCh (d : Nat) : Char := Char.ofNat (48 + d)

/-- Decimal digit characters of a natural number, most significant first. -/
def natToChars (n : Nat) : List Char :=
  if _h : n < 10 then [digitCh n]
  else natToChars (n / 10) ++ [digitCh (n % 10)]
termination_by n
decreasing_by exact Nat.div_lt_self (by omega) (by omega)

/-- Decimal characters of an integer: an optional minus sign, then digits. -/
def intToChars (n : Int) : List Char :=
  if n < 0 then '-' :: natToChars n.natAbs else natToChars n.natAbs

/-- Lower-case hexadecimal digit character for `d < 16`. -/
def hexCh (d : Nat) : Char :=
  if d < 10 then Char.ofNat (48 + d) else Char.ofNat (87 + d)

/-- JSON escape of one character, as written by `json.dump` with
`ensure_ascii=False`: quote, backslash and the short control escapes, a
`\u00XX` escape for the remaining control characters, and every other
character verbatim. -/
def escChar (c : Char) : List Char :=
  if c = '"' then ['\\', '"']
  else if c = '\\' then ['\\', '\\']
  else if c = '\n' then ['\\', 'n']
  else if c = '\t' then ['\\', 't']
  else if c = '\r' then ['\\', 'r']
  else if c = Char.ofNat 8 then ['\\', 'b']
  else if c = Char.ofNat 12 then ['\\', 'f']
  else if c.toNat < 32 then
    ['\\', 'u', '0', '0', hexCh (c.toNat / 16), hexCh (c.toNat % 16)]
  else [c]

/-- JSON escape of a whole string body. -/
def escChars : List Char → List Char
  | [] => []
  | c :: cs => escChar c ++ escChars cs

mutual

/-- Serialise a JSON value, modelling `json.dump` output up to the
insignificant indentation whitespace. -/
def dumpsVal : JVal → List Char
  | .jnull => ['n', 'u', 'l', 'l']
  | .jbool true => ['t', 'r', 'u', 'e']
  | .jbool false => ['f', 'a', 'l', 's', 'e']
  | .jnum n => intToChars n
  | .jstr s => '"' :: (escChars s ++ ['"'])
  | .jarr a => '[' :: dumpsArr a
  | .jobj o => '{' :: dumpsObj o

/-- Serialise the items of an array together with the closing bracket. -/
def dumpsArr : JArr → List Char
  | .anil => [']']
  | .acons v r => dumpsVal v ++ dumpsArrMore r

/-- Serialise the remaining items of a non-empty array: each preceded by a
comma, then the closing bracket. -/
def dumpsArrMore : JArr → List Char
  | .anil => [']']
  | .acons v r => ',' :: (dumpsVal v ++ dumpsArrMore r)

/-- Serialise the members of an object together with the closing brace. -/
def dumpsObj : JObj → List Char
  | .onil => ['}']
  | .ocons k v r => '"' :: (escChars k ++ ('"' :: ':' :: (dumpsVal v ++ dumpsObjMore r)))

/-- Serialise the remaining members of a non-empty object: each preceded by
a comma, then the closing brace. -/
def dumpsObjMore : JObj → List Char
  | .onil => ['}']
  | .ocons k v r =>
    ',' :: '"' :: (escChars k ++ ('"' :: ':' :: (dumpsVal v ++ dumpsObjMore r)))

end

/-! ## Parsing, modelling `json.loads` -/

/-- Drop leading JSON whitespace. -/
def skipWs (cs : List Char) : List Char := cs.dropWhile isJWs

/-- Numeric value of a hexadecimal digit character, if it is one. -/
def hexValCh (c : Char) : Option Nat :=
  if '0' ≤ c && c ≤ '9' then some (c.toNat - 48)
  else if 'a' ≤ c && c ≤ 'f' then some (c.toNat - 87)
  else if 'A' ≤ c && c ≤ 'F' then some (c.toNat - 55)
  else none

/-- The character a short JSON escape denotes, if the escape is legal. -/
def unescCh (c : Char) : Option Char :=
  if c = '"' then some '"'
  else if c = '\\' then some '\\'
  else if c = '/' then some '/'
  else if c = 'n' then some '\n'
  else if c = 't' then some '\t'
  else if c = 'r' then some '\r'
  else if c = 'b' then some (Char.ofNat 8)
  else if c = 'f' then some (Char.ofNat 12)
  else none

/-- Decode a `\uXXXX` escape tail: four hexadecimal digits to a character,
plus the remaining input. -/
def hexQuad : List Char → Option (Char × List Char)
  | h1 :: h2 :: h3 :: h4 :: r3 =>
    match hexValCh h1, hexValCh h2, hexValCh h3, hexValCh h4 with
    | some a, some b, some c2, some d =>
      some (Char.ofNat (((a * 16 + b) * 16 + c2) * 16 + d), r3)
    | _, _, _, _ => none
  | _ => none

/-- Decode one escape sequence given the characters after the backslash:
the decoded character and the remaining input. -/
def escDecode : List Char → Option (Char × List Char)
  | [] => none
  | e :: r2 =>
    if e = 'u' then hexQuad r2
    else (unescCh e).map fun ch => (ch, r2)

/-- Parse a JSON string body after the opening quote, up to and past the
closing quote; raw control characters are rejected, as in the strict mode
`json.loads` uses by default.  Fuel only guarantees termination: every
step consumes at least one input character, so any fuel above the input
length is enough. -/
def readStrF : Nat → List Char → Option (List Char × List Char)
  | 0, _ => none
  | _ + 1, [] => none
  | fuel + 1, c :: r =>
    if c = '"' then some ([], r)
    else if c = '\\' then
      match escDecode r with
      | some (ch, rest) => (readStrF fuel rest).map fun p => (ch :: p.1, p.2)
      | none => none
    else if c.toNat < 32 then none
    else (readStrF fuel r).map fun p => (c :: p.1, p.2)

/-- The string-body parser with its fuel supplied. -/
def readStr (cs : List Char) : Option (List Char × List Char) :=
  readStrF (cs.length + 1) cs

/-- Fold a run of digits onto an accumulator, returning the value and the
first non-digit remainder. -/
def readNatAux (acc : Nat) : List Char → Nat × List Char
  | [] => (acc, [])
  | c :: r => if isDigitCh c then readNatAux (10 * acc + digitVal c) r else (acc, c :: r)

/-- Parse a non-empty run of decimal digits. -/
def readNat : List Char → Option (Nat × List Char)
  | [] => none
  | c :: r => if isDigitCh c then some (readNatAux (digitVal c) r) else none

/-- Match an exact literal character sequence, returning the remainder. -/
def afterLit : List Char → List Char → Option (List Char)
  | [], r => some r
  | _ :: _, [] => none
  | l :: ls, c :: r => if c = l then afterLit ls r else none

mutual

/-- Recursive-descent parse of one JSON value; `fuel` only guarantees
termination and any `fuel` above the input length is enough. -/
def parseVal : Nat → List Char → Option (JVal × List Char)
  | 0, _ => none
  | fuel + 1, cs =>
    match skipWs cs with
    | [] => none
    | c :: r =>
      if c = 'n' then
        match afterLit ['u', 'l', 'l'] r with
        | some r2 => some (.jnull, r2)
        | none => none
      else if c = 't' then
        match afterLit ['r', 'u', 'e'] r with
        | some r2 => some (.jbool true, r2)
        | none => none
      else if c = 'f' then
        match afterLit ['a', 'l', 's', 'e'] r with
        | some r2 => some (.jbool false, r2)
        | none => none
      else if c = '"' then
        (readStr r).map fun p => (.jstr p.1, p.2)
      else if c = '[' then
        match skipWs r with
        | [] => none
        | c2 :: r2 =>
          if c2 = ']' then some (.jarr .anil, r2)
          else
            match parseArr fuel (c2 :: r2) with
            | some (a, r3) => some (.jarr a, r3)
            | none => none
      else if c = '{' then
        match skipWs r with
        | [] => none
        | c2 :: r2 =>
          if c2 = '}' then some (.jobj .onil, r2)
          else
            match parseObj fuel (c2 :: r2) with
            | some (o, r3) => some (.jobj o, r3)
            | none => none
      else if c = '-' then
        match readNat r with
        | some (n, r2) => some (.jnum (-(n : Int)), r2)
        | none => none
      else if isDigitCh c then
        match readNat (c :: r) with
        | some (n, r2) => some (.jnum (n : Int), r2)
        | none => none
      else none

/-- Parse the items of a non-empty array, past the closing bracket. -/
def parseArr : Nat → List Char → Option (JArr × List Char)
  | 0, _ => none
  | fuel + 1, cs =>
    match parseVal fuel cs with
    | none => none
    | some (v, r) =>
      match skipWs r with
      | [] => none
      | c :: r2 =>
        if c = ',' then
          match parseArr fuel (skipWs r2) with
          | some (a, r3) => some (.acons v a, r3)
          | none => none
        else if c = ']' then some (.acons v .anil, r2)
        else none

/-- Parse the members of a non-empty object, past the closing brace. -/
def parseObj : Nat → List Char → Option (JObj × List Char)
  | 0, _ => none
  | fuel + 1, cs =>
    match cs with
    | [] => none
    | c :: r =>
      if c = '"' then
        match readStr r with
        | none => none
        | some (k, r2) =>
          match skipWs r2 with
          | [] => none
          | c2 :: r3 =>
            if c2 = ':' then
              match parseVal fuel (skipWs r3) with
              | none => none
              | some (v, r4) =>
                match skipWs r4 with
                | [] => none
                | c3 :: r5 =>
                  if c3 = ',' then
                    match parseObj fuel (skipWs r5) with
                    | some (o, r6) => some (.ocons k v o, r6)
                    | none => none
                  else if c3 = '}' then some (.ocons k v .onil, r5)
                  else none
            else none
      else none

end

/-- Model of `json.loads`: parse one value and insist nothing but
whitespace remains, else fail (Python raises `JSONDecodeError`). -/
def json_loads (cs : List Char) : Option JVal :=
  match parseVal (cs.length + 1) cs with
  | some (v, r) => if skipWs r = [] then some v else none
  | none => none

/-! ## The greedy brace scan (the `re.S` fallback in gfg_to_json) -/

/-- Index of the first occurrence of a character. -/
def firstIdxOf (c : Char) : List Char → Option Nat
  | [] => none
  | a :: t => if a = c then some 0 else (firstIdxOf c t).map (· + 1)

/-- Index of the last occurrence of a character. -/
def lastIdxOf (c : Char) (cs : List Char) : Option Nat :=
  (firstIdxOf c cs.reverse).map fun k => cs.length - 1 - k

/-- The greedy multi-line brace scan: the span from the first opening
brace to the last closing brace, exactly the match of the fallback regular
expression with DOTALL over the response.  `none` when the pattern has no
match (no opening brace with some closing brace after it). -/
def braceScan (cs : List Char) : Option (List Char) :=
  match firstIdxOf '{' cs with
  | none => none
  | some i =>
    match lastIdxOf '}' cs with
    | none => none
    | some j => if i < j then some ((cs.drop i).take (j - i + 1)) else none

/-! ## Schema validation, modelling `GFGProfile(**parsed)` -/

/-- The validated profile record, mirroring the pydantic `GFGProfile`
schema field for field. -/
structure GFGProfile where
  username : List Char
  display_name : Option (List Char)
  about : Option (List Char)
  reputation : Option (List Char)
  followers : Option Int
  following : Option Int
  problems_solved : Option Int
  articles_count : Option Int
  badges : List (List Char)
  top_skills : List (List Char)
  raw_extracted : JObj

/-- Extraction of an optional string field: absent or null becomes `none`,
a string is kept, anything else is a validation error (pydantic v2 does
not coerce numbers to `str`). -/
def optStrField (o : JObj) (k : List Char) : Option (Option (List Char)) :=
  match o.lookLast k with
  | none => some none
  | some .jnull => some none
  | some (.jstr s) => some (some s)
  | some _ => none

/-- Value of a digit string, as `int` reads it. -/
def charsToNat (ds : List Char) : Nat :=
  List.foldl (fun a c => 10 * a + digitVal c) 0 ds

/-- The lax string-to-integer coercion that pydantic's default
(non-strict) validation applies to an `int | None` field: surrounding
whitespace is stripped, then an optional single sign must precede a
non-empty run of decimal digits, read as that integer (`"5" -> 5`,
`"-12" -> -12`); any other string is a validation error. -/
def strToInt (s : List Char) : Option Int :=
  match ((s.dropWhile isJWs).reverse.dropWhile isJWs).reverse with
  | '-' :: ds =>
    if !ds.isEmpty && ds.all isDigitCh then some (-(charsToNat ds : Int)) else none
  | '+' :: ds =>
    if !ds.isEmpty && ds.all isDigitCh then some ((charsToNat ds : Int)) else none
  | ds =>
    if !ds.isEmpty && ds.all isDigitCh then some ((charsToNat ds : Int)) else none

/-- Extraction of an optional integer field, with the lax coercion of
pydantic's default validation: absent or null becomes `None`, an integer
is kept, and a string that reads as a decimal integer is coerced to it
(`"5"` is accepted as `5`); anything else is a validation error. -/
def optIntField (o : JObj) (k : List Char) : Option (Option Int) :=
  match o.lookLast k with
  | none => some none
  | some .jnull => some none
  | some (.jnum n) => some (some n)
  | some (.jstr s) =>
    match strToInt s with
    | some n => some (some n)
    | none => none
  | some _ => none

/-- All-strings check for a JSON array, yielding the strings. -/
def strElems : JArr → Option (List (List Char))
  | .anil => some []
  | .acons v r =>
    match v with
    | .jstr s => (strElems r).map (s :: ·)
    | _ => none

/-- Extraction of a `list[str]` field with default `[]`: an absent key
takes the default, a present key must be an array of strings.  This is
the pydantic v2 behaviour, where list elements are validated as `str`
without coercion, so `[1]` is rejected; pydantic v1 would instead
coerce the element to the string `"1"` — either way every accepted
list field holds only strings. -/
def strListField (o : JObj) (k : List Char) : Option (List (List Char)) :=
  match o.lookLast k with
  | none => some []
  | some (.jarr a) => strElems a
  | some _ => none

/-- Extraction of the open `dict` field with an empty default. -/
def dictField (o : JObj) (k : List Char) : Option JObj :=
  match o.lookLast k with
  | none => some .onil
  | some (.jobj m) => some m
  | some _ => none

/-- The required `username : str` field: missing or non-string rejects. -/
def usernameField (o : JObj) : Option (List Char) :=
  match o.lookLast (s2c "username") with
  | some (.jstr u) => some u
  | _ => none

/-- Whether the value at a key, if any, is not a JSON string.  Used to
state exact schema conformance of a numeric field: a decimal string
would also validate, by coercion, but a mapping carrying one does not
conform exactly — the coercion alters the value. -/
def notStrAt (o : JObj) (k : List Char) : Bool :=
  match o.lookLast k with
  | some (.jstr _) => false
  | _ => true

/-- Validation of the parsed mapping, modelling `GFGProfile(**parsed)`
under the default pydantic configuration: keys outside the schema are
ignored, `username` is required, the other fields take their declared
defaults when absent and are type-checked when present. -/
def GFGProfile.validate (o : JObj) : Option GFGProfile :=
  match usernameField o, optStrField o (s2c "display_name"), optStrField o (s2c "about"),
        optStrField o (s2c "reputation"), optIntField o (s2c "followers"),
        optIntField o (s2c "following"), optIntField o (s2c "problems_solved"),
        optIntField o (s2c "articles_count"), strListField o (s2c "badges"),
        strListField o (s2c "top_skills"), dictField o (s2c "raw_extracted") with
  | some u, some dn, some ab, some rep, some fo, some fg, some ps, some ac,
    some bd, some ts, some raw => some ⟨u, dn, ab, rep, fo, fg, ps, ac, bd, ts, raw⟩
  | _, _, _, _, _, _, _, _, _, _, _ => none

/-- JSON value of an optional string, as `profile.dict()` serialises it. -/
def jOfOptStr : Option (List Char) → JVal
  | none => .jnull
  | some s => .jstr s

/-- JSON value of an optional integer. -/
def jOfOptInt : Option Int → JVal
  | none => .jnull
  | some n => .jnum n

/-- JSON array of a list of strings. -/
def jArrOfStrs : List (List Char) → JArr
  | [] => .anil
  | s :: r => .acons (.jstr s) (jArrOfStrs r)

/-- The dict produced by `profile.dict()`: every schema field, in
declaration order. -/
def GFGProfile.toDict (p : GFGProfile) : JObj :=
  .ocons (s2c "username") (.jstr p.username)
  (.ocons (s2c "display_name") (jOfOptStr p.display_name)
  (.ocons (s2c "about") (jOfOptStr p.about)
  (.ocons (s2c "reputation") (jOfOptStr p.reputation)
  (.ocons (s2c "followers") (jOfOptInt p.followers)
  (.ocons (s2c "following") (jOfOptInt p.following)
  (.ocons (s2c "problems_solved") (jOfOptInt p.problems_solved)
  (.ocons (s2c "articles_count") (jOfOptInt p.articles_count)
  (.ocons (s2c "badges") (.jarr (jArrOfStrs p.badges))
  (.ocons (s2c "top_skills") (.jarr (jArrOfStrs p.top_skills))
  (.ocons (s2c "raw_extracted") (.jobj p.raw_extracted) .onil))))))))))

/-- The eleven keys of the target schema. -/
def schemaKeys : List (List Char) :=
  [s2c "username", s2c "display_name", s2c "about", s2c "reputation",
   s2c "followers", s2c "following", s2c "problems_solved",
   s2c "articles_count", s2c "badges", s2c "top_skills", s2c "raw_extracted"]

/-! ## The extractor (parse_profile_html and grab_num) -/

/-- The BeautifulSoup view of a fetched page, abstracted to exactly what
`parse_profile_html` consumes: the stripped texts of the elements each
selector group matches, in document order, and the visible text from
`get_text(separator)`. -/
structure Soup where
  nameSel : List (List Char)
  aboutSel : List (List Char)
  badgeSel : List (List Char)
  skillSel : List (List Char)
  text : List Char

/-- The `[:\s]*` separator class of the counter patterns. -/
def isSepCh (c : Char) : Bool :=
  c = ':' || c = ' ' || c = '\t' || c = '\n' || c = '\r' ||
  c = Char.ofNat 11 || c = Char.ofNat 12

/-- The `[0-9,]` class of the captured group. -/
def isNumCh (c : Char) : Bool := isDigitCh c || c = ','

/-- Case-insensitive literal label match, returning the remainder. -/
def stripLabel : List Char → List Char → Option (List Char)
  | [], cs => some cs
  | _ :: _, [] => none
  | l :: ls, c :: cs => if c.toLower = l.toLower then stripLabel ls cs else none

/-- One pattern alternative tried at the current position: the label, then
`[:\s]*`, then a non-empty greedy `[0-9,]+` group. -/
def tryOne (lab : List Char) (cs : List Char) : Option (List Char) :=
  match stripLabel lab cs with
  | none => none
  | some r =>
    let g := (r.dropWhile isSepCh).takeWhile isNumCh
    if g.isEmpty then none else some g

/-- Pattern alternatives tried left to right at the current position. -/
def tryAlts : List (List Char) → List Char → Option (List Char)
  | [], _ => none
  | lab :: more, cs =>
    match tryOne lab cs with
    | some g => some g
    | none => tryAlts more cs

/-- The leftmost match: positions scanned left to right, as `re.search`
does. -/
def scanNum (alts : List (List Char)) : List Char → Option (List Char)
  | [] => none
  | c :: cs =>
    match tryAlts alts (c :: cs) with
    | some g => some g
    | none => scanNum alts cs

/-- One `grab_num(pat)` call: the leftmost case-insensitive match of
`Label[:\s]*([0-9,]+)` (alternative labels tried left to right), then
`int(group.replace(",", ""))`.  A group holding only commas leaves `int`
with an empty string and raises `ValueError`, modelled as the error case. -/
def grab_num (alts : List (List Char)) (text : List Char) : Except Unit (Option Nat) :=
  match scanNum alts text with
  | none => .ok none
  | some g =>
    let ds := g.filter fun c => !(c = ',')
    if ds.isEmpty then .error () else .ok (some (charsToNat ds))

/-- Label alternatives of the followers pattern. -/
def followersPats : List (List Char) := [s2c "followers"]

/-- Label alternatives of the following pattern. -/
def followingPats : List (List Char) := [s2c "following"]

/-- Label alternatives of the problems-solved pattern. -/
def problemsPats : List (List Char) := [s2c "problems solved", s2c "solved problems"]

/-- Label alternatives of the articles pattern. -/
def articlesPats : List (List Char) := [s2c "articles", s2c "posts"]

/-- A value of the extractor dict: a string, an optional number (null when
the pattern had no match), or a list of strings. -/
inductive PVal where
  | pstr (s : List Char)
  | pnum (n : Option Nat)
  | plist (xs : List (List Char))

/-- The extractor, modelling `parse_profile_html`: keys inserted in source
order; display name and about come from the first selector match, the four
counters are always present (null on no match), badges keep only non-empty
stripped texts and the key is omitted when that list is empty, skills keep
every stripped text (empty or not) and the key is omitted only when no
element matched, and the raw text snippet is always appended.  The
`.error` outcome is the `ValueError` raised by `int("")` on a comma-only
group. -/
def parse_profile_html (soup : Soup) : Except Unit (List (List Char × PVal)) := do
  let d1 : List (List Char × PVal) :=
    match soup.nameSel.head? with
    | some t => [(s2c "display_name", .pstr t)]
    | none => []
  let d2 :=
    match soup.aboutSel.head? with
    | some t => d1 ++ [(s2c "about", .pstr t)]
    | none => d1
  let fo ← grab_num followersPats soup.text
  let fg ← grab_num followingPats soup.text
  let ps ← grab_num problemsPats soup.text
  let ac ← grab_num articlesPats soup.text
  let d3 := d2 ++ [(s2c "followers", .pnum fo), (s2c "following", .pnum fg),
                   (s2c "problems_solved", .pnum ps), (s2c "articles_count", .pnum ac)]
  let bs := soup.badgeSel.filter fun t => !t.isEmpty
  let d4 := if bs.isEmpty then d3 else d3 ++ [(s2c "badges", .plist bs)]
  let d5 :=
    if soup.skillSel.isEmpty then d4
    else d4 ++ [(s2c "top_skills", .plist soup.skillSel)]
  pure (d5 ++ [(s2c "raw_text_snippet", .pstr (soup.text.take 2000))])

/-! ## Fetching and the pipeline -/

/-- What one `requests.get` call does for one URL: an HTTP response with a
status code and (parsed) body, or a raised transport exception. -/
inductive HttpOutcome where
  | response (code : Nat) (body : Soup)
  | failure

/-- `fetch_gfg_profile`: the two URLs tried in order; a transport
exception propagates uncaught (`.error`), a 200 response returns its body,
and if no URL yields a 200 the function returns `None`. -/
def fetch_gfg_profile : List HttpOutcome → Except Unit (Option Soup)
  | [] => .ok none
  | .failure :: _ => .error ()
  | .response code body :: rest =>
    if code = 200 then .ok (some body) else fetch_gfg_profile rest

/-- The environment of one run: the outcome of each candidate URL in
order, and the opaque text the model chain returns. -/
structure Env where
  outcomes : List HttpOutcome
  modelResponse : List Char

/-- The ways a run can fail, matching the exceptions of the script:
`transport` is an uncaught `requests` exception, `notFound` the
`ValueError("Profile not found or private.")`, `parseFailure` the
`ValueError` from `int("")` in the extractor, `decodeFailure` the
`JSONDecodeError` raised when the brace-scanned span does not parse,
`invalidModelJson` the `ValueError` carrying the raw response text,
`nonMapping` the `TypeError` from `**parsed` on a non-dict, and
`validationFailure` the pydantic `ValidationError`. -/
inductive RunError where
  | transport
  | notFound
  | parseFailure
  | decodeFailure
  | invalidModelJson (raw : List Char)
  | nonMapping
  | validationFailure

/-- Interpretation of the model response: direct `json.loads` first; on
failure the greedy DOTALL brace-scan span is parsed; with no span at all
the `ValueError` carrying the raw response is raised, while a span that
fails to parse raises a `JSONDecodeError` without the raw text. -/
def interpretResponse (resp : List Char) : Except RunError JVal :=
  match json_loads resp with
  | some v => .ok v
  | none =>
    match braceScan resp with
    | some sub =>
      match json_loads sub with
      | some v => .ok v
      | none => .error .decodeFailure
    | none => .error (.invalidModelJson resp)

/-- The pipeline `gfg_to_json` over the environment and the current
content of the output path (`none` = no file there).  Any pre-existing
file is deleted before the fetch; the validated dict is serialised to the
path only on full success.  Returns the final content of the output path
together with the outcome (the `result` dict, or the raised error). -/
def gfg_to_json (env : Env) (_fs : Option (List Char)) :
    Option (List Char) × Except RunError JObj :=
  match fetch_gfg_profile env.outcomes with
  | .error _ => (none, .error .transport)
  | .ok none => (none, .error .notFound)
  | .ok (some soup) =>
    match parse_profile_html soup with
    | .error _ => (none, .error .parseFailure)
    | .ok _raw =>
      match interpretResponse env.modelResponse with
      | .error e => (none, .error e)
      | .ok (.jobj kvs) =>
        match GFGProfile.validate kvs with
        | none => (none, .error .validationFailure)
        | some p => (some (dumpsVal (.jobj p.toDict)), .ok p.toDict)
      | .ok _ => (none, .error .nonMapping)

/-! ## Concrete instances the claim theorems evaluate -/

/-- A fetched page where no selector matches and the visible text is empty. -/
def emptySoup : Soup := ⟨[], [], [], [], []⟩

/-- A 200 response carrying `emptySoup`. -/
def okOutcome : HttpOutcome := .response 200 emptySoup

/-- A fetched page whose only selector hit is one skill element with empty
stripped text (for instance markup holding one empty tag of the skill
class). -/
def emptySkillSoup : Soup := ⟨[], [], [], [[]], []⟩

/-- A model response whose only top-level keys are the required username
and one key outside the schema. -/
def extraKeyResp : List Char := s2c "\x7b\"username\": \"u\", \"contest_rating\": 5\x7d"

/-- A parsed mapping carrying a negative followers count. -/
def negFollowersObj : JObj :=
  .ocons (s2c "username") (.jstr (s2c "u")) (.ocons (s2c "followers") (.jnum (-5)) .onil)

/-- The profile that validating `negFollowersObj` constructs. -/
def negFollowersProfile : GFGProfile :=
  ⟨s2c "u", none, none, none, some (-5), none, none, none, [], [], .onil⟩

/-- A parsed mapping whose followers value is the string "5", which the
lax validation coerces to the integer 5. -/
def coercedFollowersObj : JObj :=
  .ocons (s2c "username") (.jstr (s2c "u"))
    (.ocons (s2c "followers") (.jstr (s2c "5")) .onil)

/-- The profile that validating `coercedFollowersObj` constructs: the
followers field holds the coerced integer 5. -/
def coercedFollowersProfile : GFGProfile :=
  ⟨s2c "u", none, none, none, some 5, none, none, none, [], [], .onil⟩

/-- A response embedding a valid JSON object in prose with a stray closing
brace later in the prose. -/
def strayBraceResp : List Char := s2c "x \x7b\"a\": 1\x7d y\x7d"

/-- A response whose brace span is not valid JSON. -/
def badSpanResp : List Char := s2c "\x7bx\x7d"

/-- A visible text with two followers matches, the leftmost without the
thousands separator. -/
def twoFollowersText : List Char := s2c "Followers: 2 Followers: 12,345"

/-- A minimal conforming model response, username only. -/
def c8RespA : List Char := s2c "\x7b\"username\": \"a\"\x7d"

/-- A second minimal conforming model response with different data. -/
def c8RespB : List Char := s2c "\x7b\"username\": \"b\"\x7d"

/-- The profile validated from `c8RespA`. -/
def c8ProfileA : GFGProfile := ⟨s2c "a", none, none, none, none, none, none, none, [], [], .onil⟩

/-- The profile validated from `c8RespB`. -/
def c8ProfileB : GFGProfile := ⟨s2c "b", none, none, none, none, none, none, none, [], [], .onil⟩

/-- A full conforming model response: every schema key present with an
exactly typed value. -/
def fullResp : List Char :=
  s2c "\x7b\"username\": \"u\", \"display_name\": \"U\", \"about\": null, \"reputation\": null, \"followers\": 1, \"following\": 2, \"problems_solved\": 3, \"articles_count\": 4, \"badges\": [\"b\"], \"top_skills\": [], \"raw_extracted\": \x7b\"k\": \"v\"\x7d\x7d"

/-- The mapping `fullResp` parses to. -/
def fullObj : JObj :=
  .ocons (s2c "username") (.jstr (s2c "u"))
  (.ocons (s2c "display_name") (.jstr (s2c "U"))
  (.ocons (s2c "about") .jnull
  (.ocons (s2c "reputation") .jnull
  (.ocons (s2c "followers") (.jnum 1)
  (.ocons (s2c "following") (.jnum 2)
  (.ocons (s2c "problems_solved") (.jnum 3)
  (.ocons (s2c "articles_count") (.jnum 4)
  (.ocons (s2c "badges") (.jarr (.acons (.jstr (s2c "b")) .anil))
  (.ocons (s2c "top_skills") (.jarr .anil)
  (.ocons (s2c "raw_extracted") (.jobj (.ocons (s2c "k") (.jstr (s2c "v")) .onil))
    .onil))))))))))

/-- The profile validated from `fullObj`. -/
def fullProfile : GFGProfile :=
  ⟨s2c "u", some (s2c "U"), none, none, some 1, some 2, some 3, some 4,
   [s2c "b"], [], .ocons (s2c "k") (.jstr (s2c "v")) .onil⟩

/-- A remainder that cannot extend a `[0-9,]+` group: empty or headed by a
character outside the class. -/
def numStop : List Char → Bool
  | [] => true
  | c :: _ => !isNumCh c

/-! ## The serialiser-parser round trip

`json_loads (dumpsVal v) = some v` for every value; needed for the
persistence round-trip claim. -/

/-- A remainder that cannot extend a digit run: empty or headed by a
non-digit. -/
def stopCh : List Char → Bool
  | [] => true
  | c :: _ => !isDigitCh c

theorem digitCh_spec : ∀ d : Fin 10, digitVal (digitCh d.val) = d.val ∧ isDigitCh (digitCh d.val) = true := by decide

theorem digitVal_digitCh {d : Nat} (h : d < 10) : digitVal (digitCh d) = d :=
  (digitCh_spec ⟨d, h⟩).1

theorem isDigitCh_digitCh {d : Nat} (h : d < 10) : isDigitCh (digitCh d) = true :=
  (digitCh_spec ⟨d, h⟩).2

theorem natToChars_ne_nil (n : Nat) : natToChars n ≠ [] := by
  rw [natToChars]
  split <;> simp

theorem natToChars_digits (n : Nat) : ∀ c ∈ natToChars n, isDigitCh c = true := by
  induction n using Nat.strongRecOn with
  | _ n ih =>
    rw [natToChars]
    split
    · intro c hc
      rw [List.mem_singleton] at hc
      subst hc
      exact isDigitCh_digitCh (by omega)
    · intro c hc
      rcases List.mem_append.mp hc with h1 | h2
      · exact ih (n / 10) (Nat.div_lt_self (by omega) (by omega)) c h1
      · rw [List.mem_singleton] at h2
        subst h2
        exact isDigitCh_digitCh (Nat.mod_lt _ (by omega))

theorem readNatAux_run (ds : List Char) (hds : ∀ c ∈ ds, isDigitCh c = true) :
    ∀ (rest : List Char), stopCh rest = true → ∀ acc : Nat,
    readNatAux acc (ds ++ rest)
      = (List.foldl (fun a c => 10 * a + digitVal c) acc ds, rest) := by
  induction ds with
  | nil =>
    intro rest hrest acc
    cases rest with
    | nil => rfl
    | cons c t =>
      simp only [stopCh, Bool.not_eq_true'] at hrest
      simp [readNatAux, hrest]
  | cons c t ih =>
    intro rest hrest acc
    have hc : isDigitCh c = true := hds c (by simp)
    simp only [List.cons_append, readNatAux, hc, if_true, List.append_eq]
    rw [ih (fun x hx => hds x (by simp [hx])) rest hrest]
    simp

theorem foldl_natToChars (n : Nat) :
    List.foldl (fun a c => 10 * a + digitVal c) 0 (natToChars n) = n := by
  induction n using Nat.strongRecOn with
  | _ n ih =>
    rw [natToChars]
    split
    · next h => simp [digitVal_digitCh h]
    · next h =>
      rw [List.foldl_append, ih (n / 10) (Nat.div_lt_self (by omega) (by omega))]
      simp only [List.foldl_cons, List.foldl_nil]
      rw [digitVal_digitCh (Nat.mod_lt _ (by omega))]
      omega

theorem readNat_digits (ds rest : List Char) (hne : ds ≠ [])
    (hds : ∀ c ∈ ds, isDigitCh c = true) (hrest : stopCh rest = true) :
    readNat (ds ++ rest) = some (List.foldl (fun a c => 10 * a + digitVal c) 0 ds, rest) := by
  cases ds with
  | nil => exact absurd rfl hne
  | cons c t =>
    have hc : isDigitCh c = true := hds c (by simp)
    simp only [List.cons_append, readNat, hc, if_true]
    rw [readNatAux_run t (fun x hx => hds x (by simp [hx])) rest hrest]
    simp [digitVal]

theorem readNat_natToChars (n : Nat) (rest : List Char) (hrest : stopCh rest = true) :
    readNat (natToChars n ++ rest) = some (n, rest) := by
  rw [readNat_digits _ _ (natToChars_ne_nil n) (natToChars_digits n) hrest,
      foldl_natToChars]

theorem hexValCh_hexCh : ∀ d : Fin 16, hexValCh (hexCh d.val) = some d.val := by decide

theorem readStrF_backslash (fuel : Nat) (r : List Char) (ch : Char) (rest : List Char)
    (h : escDecode r = some (ch, rest)) :
    readStrF (fuel + 1) ('\\' :: r) = (readStrF fuel rest).map fun p => (ch :: p.1, p.2) := by
  simp only [readStrF]
  rw [h]
  simp +decide

theorem readStrF_escChar (fuel : Nat) (c : Char) (r : List Char) :
    readStrF (fuel + 1) (escChar c ++ r) = (readStrF fuel r).map fun p => (c :: p.1, p.2) := by
  rw [escChar]
  split
  · next h =>
    subst h
    simp only [List.cons_append, List.nil_append]
    exact readStrF_backslash _ _ _ _ rfl
  · split
    · next h =>
      subst h
      simp only [List.cons_append, List.nil_append]
      exact readStrF_backslash _ _ _ _ rfl
    · split
      · next h =>
        subst h
        simp only [List.cons_append, List.nil_append]
        exact readStrF_backslash _ _ _ _ rfl
      · split
        · next h =>
          subst h
          simp only [List.cons_append, List.nil_append]
          exact readStrF_backslash _ _ _ _ rfl
        · split
          · next h =>
            subst h
            simp only [List.cons_append, List.nil_append]
            exact readStrF_backslash _ _ _ _ rfl
          · split
            · next h =>
              subst h
              simp only [List.cons_append, List.nil_append]
              exact readStrF_backslash _ _ _ _ rfl
            · split
              · next h =>
                subst h
                simp only [List.cons_append, List.nil_append]
                exact readStrF_backslash _ _ _ _ rfl
              · split
                · next hlt =>
                  have h16a : c.toNat / 16 < 16 := by omega
                  have h16b : c.toNat % 16 < 16 := Nat.mod_lt _ (by omega)
                  have e1 := hexValCh_hexCh ⟨c.toNat / 16, h16a⟩
                  have e2 := hexValCh_hexCh ⟨c.toNat % 16, h16b⟩
                  simp only [List.cons_append, List.nil_append]
                  refine readStrF_backslash _ _ _ _ ?_
                  simp only [escDecode, hexQuad, if_pos]
                  rw [show hexValCh '0' = some 0 from rfl, e1, e2]
                  simp only [Option.some.injEq, Prod.mk.injEq]
                  constructor
                  · have : ((0 * 16 + 0) * 16 + c.toNat / 16) * 16 + c.toNat % 16 = c.toNat := by
                      omega
                    rw [this, Char.ofNat_toNat]
                  · trivial
                · next hq hb _ _ _ _ _ hge =>
                  simp only [List.cons_append, List.nil_append]
                  simp only [readStrF]
                  rw [if_neg hq, if_neg hb, if_neg hge]

theorem readStrF_escChars : ∀ (s : List Char) (fuel : Nat) (r : List Char),
    s.length < fuel →
    readStrF fuel (escChars s ++ '"' :: r) = some (s, r) := by
  intro s
  induction s with
  | nil =>
    intro fuel r hf
    cases fuel with
    | zero => omega
    | succ f => simp +decide [escChars, readStrF]
  | cons c t ih =>
    intro fuel r hf
    cases fuel with
    | zero => omega
    | succ f =>
      rw [escChars, List.append_assoc, readStrF_escChar,
          ih f r (by simp at hf; omega)]
      rfl

theorem escChar_len_pos (c : Char) : 1 ≤ (escChar c).length := by
  rw [escChar]
  repeat' split
  all_goals simp

theorem escChars_len (s : List Char) : s.length ≤ (escChars s).length := by
  induction s with
  | nil => simp [escChars]
  | cons c t ih =>
    have := escChar_len_pos c
    simp only [escChars, List.length_append, List.length_cons]
    omega

theorem readStr_escChars (s : List Char) (r : List Char) :
    readStr (escChars s ++ '"' :: r) = some (s, r) := by
  rw [readStr]
  refine readStrF_escChars s _ r ?_
  have := escChars_len s
  simp only [List.length_append, List.length_cons]
  omega

theorem digit_not_ws {c : Char} (h : isDigitCh c = true) : isJWs c = false := by
  cases hw : isJWs c
  · rfl
  · exfalso
    simp only [isJWs, Bool.or_eq_true, decide_eq_true_eq] at hw
    rcases hw with ((rfl | rfl) | rfl) | rfl <;> exact absurd h (by decide)

theorem digit_ne {c : Char} (h : isDigitCh c = true) (d : Char)
    (hd : isDigitCh d = false) : c ≠ d := by
  intro hcd
  subst hcd
  simp [h] at hd

theorem natToChars_head (n : Nat) :
    ∃ c t, natToChars n = c :: t ∧ isDigitCh c = true := by
  cases hn : natToChars n with
  | nil => exact absurd hn (natToChars_ne_nil n)
  | cons c t =>
    refine ⟨c, t, rfl, ?_⟩
    exact natToChars_digits n c (by rw [hn]; simp)

theorem dumpsVal_head (v : JVal) :
    ∃ c t, dumpsVal v = c :: t ∧ isJWs c = false ∧ c ≠ ']' ∧ c ≠ '}' := by
  cases v with
  | jnull => exact ⟨'n', _, rfl, by decide, by decide, by decide⟩
  | jbool b =>
    cases b with
    | false => exact ⟨'f', _, rfl, by decide, by decide, by decide⟩
    | true => exact ⟨'t', _, rfl, by decide, by decide, by decide⟩
  | jnum n =>
    rw [show dumpsVal (.jnum n) = intToChars n from rfl, intToChars]
    split
    · exact ⟨'-', _, rfl, by decide, by decide, by decide⟩
    · obtain ⟨c, t, hct, hc⟩ := natToChars_head n.natAbs
      rw [hct]
      exact ⟨c, t, rfl, digit_not_ws hc, digit_ne hc ']' (by decide),
        digit_ne hc '}' (by decide)⟩
  | jstr s => exact ⟨'"', _, rfl, by decide, by decide, by decide⟩
  | jarr a => exact ⟨'[', _, rfl, by decide, by decide, by decide⟩
  | jobj o => exact ⟨'{', _, rfl, by decide, by decide, by decide⟩

theorem skipWs_cons_not {c : Char} (h : isJWs c = false) (r : List Char) :
    skipWs (c :: r) = c :: r := by
  simp [skipWs, List.dropWhile_cons, h]

theorem skipWs_dumps (v : JVal) (x : List Char) :
    skipWs (dumpsVal v ++ x) = dumpsVal v ++ x := by
  obtain ⟨c, t, hct, hws, -, -⟩ := dumpsVal_head v
  rw [hct, List.cons_append, skipWs_cons_not hws]

theorem stopCh_arrMore (a : JArr) (x : List Char) :
    stopCh (dumpsArrMore a ++ x) = true := by
  cases a <;> simp +decide [dumpsArrMore, stopCh]

theorem stopCh_objMore (o : JObj) (x : List Char) :
    stopCh (dumpsObjMore o ++ x) = true := by
  cases o <;> simp +decide [dumpsObjMore, stopCh]

theorem dumpsArrMore_pos (a : JArr) : 1 ≤ (dumpsArrMore a).length := by
  cases a <;> simp [dumpsArrMore]

theorem dumpsObjMore_pos (o : JObj) : 1 ≤ (dumpsObjMore o).length := by
  cases o <;> simp [dumpsObjMore]

theorem parseVal_num (fuel : Nat) (n : Int) (rest : List Char)
    (hrest : stopCh rest = true) :
    parseVal (fuel + 1) (intToChars n ++ rest) = some (.jnum n, rest) := by
  rw [intToChars]
  split
  · next hneg =>
    simp only [List.cons_append, parseVal]
    rw [skipWs_cons_not (by decide)]
    simp only [reduceIte, reduceCtorEq]
    rw [readNat_natToChars n.natAbs rest hrest]
    show some (JVal.jnum (-((n.natAbs : Nat) : Int)), rest) = some (JVal.jnum n, rest)
    rw [show -((n.natAbs : Nat) : Int) = n from by omega]
  · next hpos =>
    obtain ⟨c, t, hct, hc⟩ := natToChars_head n.natAbs
    rw [hct, List.cons_append]
    have h1 := digit_ne hc 'n' (by decide)
    have h2 := digit_ne hc 't' (by decide)
    have h3 := digit_ne hc 'f' (by decide)
    have h4 := digit_ne hc '"' (by decide)
    have h5 := digit_ne hc '[' (by decide)
    have h6 := digit_ne hc '{' (by decide)
    have h7 := digit_ne hc '-' (by decide)
    simp only [parseVal]
    rw [skipWs_cons_not (digit_not_ws hc)]
    simp only [h1, h2, h3, h4, h5, h6, h7, hc, if_false, if_true, ite_false, ite_true]
    rw [show (c :: (t ++ rest)) = (c :: t) ++ rest from rfl, ← hct,
        readNat_natToChars n.natAbs rest hrest]
    show some (JVal.jnum ((n.natAbs : Nat) : Int), rest) = some (JVal.jnum n, rest)
    rw [show ((n.natAbs : Nat) : Int) = n from by omega]

mutual

theorem rt_val : ∀ (fuel : Nat) (v : JVal) (rest : List Char),
    (dumpsVal v).length < fuel → stopCh rest = true →
    parseVal fuel (dumpsVal v ++ rest) = some (v, rest)
  | 0, _, _, hf, _ => absurd hf (Nat.not_lt_zero _)
  | fuel + 1, .jnull, rest, _, _ => by
    show parseVal (fuel + 1) ((['n', 'u', 'l', 'l'] : List Char) ++ rest) = some (.jnull, rest)
    simp only [parseVal, List.cons_append, List.nil_append]
    rw [skipWs_cons_not (by decide)]
    simp +decide [afterLit]
  | fuel + 1, .jbool true, rest, _, _ => by
    show parseVal (fuel + 1) ((['t', 'r', 'u', 'e'] : List Char) ++ rest) = some (.jbool true, rest)
    simp only [parseVal, List.cons_append, List.nil_append]
    rw [skipWs_cons_not (by decide)]
    simp +decide [afterLit]
  | fuel + 1, .jbool false, rest, _, _ => by
    show parseVal (fuel + 1) ((['f', 'a', 'l', 's', 'e'] : List Char) ++ rest)
        = some (.jbool false, rest)
    simp only [parseVal, List.cons_append, List.nil_append]
    rw [skipWs_cons_not (by decide)]
    simp +decide [afterLit]
  | fuel + 1, .jnum n, rest, _, hrest => parseVal_num fuel n rest hrest
  | fuel + 1, .jstr s, rest, _, _ => by
    show parseVal (fuel + 1) (('"' :: (escChars s ++ ['"'])) ++ rest) = some (.jstr s, rest)
    simp only [parseVal, List.cons_append]
    rw [skipWs_cons_not (by decide)]
    try simp +decide only []
    rw [List.append_assoc, List.singleton_append, readStr_escChars]
    rfl
  | fuel + 1, .jarr .anil, rest, _, _ => by
    show parseVal (fuel + 1) (('[' :: [']']) ++ rest) = some (.jarr .anil, rest)
    simp only [parseVal, List.cons_append, List.nil_append]
    rw [skipWs_cons_not (by decide)]
    try simp +decide only []
    rw [skipWs_cons_not (by decide)]
    simp +decide
  | fuel + 1, .jarr (.acons v a), rest, hf, _ => by
    have hlt : (dumpsArr (.acons v a)).length < fuel := by
      have : dumpsVal (.jarr (.acons v a)) = '[' :: dumpsArr (.acons v a) := rfl
      rw [this] at hf
      simp only [List.length_cons] at hf
      omega
    obtain ⟨c2, t2, hct, hws, hbr, -⟩ := dumpsVal_head v
    show parseVal (fuel + 1) (('[' :: dumpsArr (.acons v a)) ++ rest)
        = some (.jarr (.acons v a), rest)
    simp only [parseVal, List.cons_append]
    rw [skipWs_cons_not (by decide)]
    try simp +decide only []
    rw [show dumpsArr (.acons v a) = dumpsVal v ++ dumpsArrMore a from rfl,
        List.append_assoc, skipWs_dumps v _, hct, List.cons_append]
    simp only [hbr, if_false, ite_false]
    rw [show c2 :: (t2 ++ (dumpsArrMore a ++ rest))
          = (c2 :: t2) ++ (dumpsArrMore a ++ rest) from rfl, ← hct, ← List.append_assoc,
        ← show dumpsArr (.acons v a) = dumpsVal v ++ dumpsArrMore a from rfl]
    rw [rt_arr fuel v a rest hlt]
    simp
  | fuel + 1, .jobj .onil, rest, _, _ => by
    show parseVal (fuel + 1) (('{' :: ['}']) ++ rest) = some (.jobj .onil, rest)
    simp only [parseVal, List.cons_append, List.nil_append]
    rw [skipWs_cons_not (by decide)]
    try simp +decide only []
    rw [skipWs_cons_not (by decide)]
    simp +decide
  | fuel + 1, .jobj (.ocons k v o), rest, hf, _ => by
    have hlt : (dumpsObj (.ocons k v o)).length < fuel := by
      have : dumpsVal (.jobj (.ocons k v o)) = '{' :: dumpsObj (.ocons k v o) := rfl
      rw [this] at hf
      simp only [List.length_cons] at hf
      omega
    show parseVal (fuel + 1) (('{' :: dumpsObj (.ocons k v o)) ++ rest)
        = some (.jobj (.ocons k v o), rest)
    simp only [parseVal, List.cons_append]
    rw [skipWs_cons_not (by decide)]
    try simp +decide only []
    rw [show dumpsObj (.ocons k v o)
          = '"' :: (escChars k ++ ('"' :: ':' :: (dumpsVal v ++ dumpsObjMore o))) from rfl,
        List.cons_append, skipWs_cons_not (by decide)]
    try simp +decide only []
    rw [← List.cons_append,
        ← show dumpsObj (.ocons k v o)
            = '"' :: (escChars k ++ ('"' :: ':' :: (dumpsVal v ++ dumpsObjMore o))) from rfl]
    rw [rt_obj fuel k v o rest hlt]
    simp
  termination_by fuel _ _ _ _ => fuel

theorem rt_arr : ∀ (fuel : Nat) (v : JVal) (a : JArr) (rest : List Char),
    (dumpsArr (.acons v a)).length < fuel →
    parseArr fuel (dumpsArr (.acons v a) ++ rest) = some (.acons v a, rest)
  | 0, _, _, _, hf => absurd hf (Nat.not_lt_zero _)
  | fuel + 1, v, a, rest, hf => by
    have hlen : (dumpsArr (.acons v a)).length
        = (dumpsVal v).length + (dumpsArrMore a).length := by
      simp [dumpsArr, List.length_append]
    have hmore := dumpsArrMore_pos a
    have hlenv : (dumpsVal v).length < fuel := by omega
    show parseArr (fuel + 1) ((dumpsVal v ++ dumpsArrMore a) ++ rest) = some (.acons v a, rest)
    simp only [parseArr]
    rw [List.append_assoc, rt_val fuel v _ hlenv (stopCh_arrMore a rest)]
    cases a with
    | anil =>
      show (match skipWs (([']'] : List Char) ++ rest) with
            | [] => none
            | c :: r2 =>
              if c = ',' then
                match parseArr fuel (skipWs r2) with
                | some (a, r3) => some (JArr.acons v a, r3)
                | none => none
              else if c = ']' then some (JArr.acons v .anil, r2)
              else none)
          = some (JArr.acons v .anil, rest)
      rw [List.singleton_append, skipWs_cons_not (by decide)]
      simp +decide
    | acons v2 a2 =>
      have hlt2 : (dumpsArr (.acons v2 a2)).length < fuel := by
        have h2 : (dumpsArrMore (.acons v2 a2)).length
            = 1 + (dumpsVal v2).length + (dumpsArrMore a2).length := by
          simp [dumpsArrMore, List.length_append]
          omega
        have h3 : (dumpsArr (.acons v2 a2)).length
            = (dumpsVal v2).length + (dumpsArrMore a2).length := by
          simp [dumpsArr, List.length_append]
        omega
      show (match skipWs (dumpsArrMore (.acons v2 a2) ++ rest) with
            | [] => none
            | c :: r2 =>
              if c = ',' then
                match parseArr fuel (skipWs r2) with
                | some (a, r3) => some (JArr.acons v a, r3)
                | none => none
              else if c = ']' then some (JArr.acons v .anil, r2)
              else none)
          = some (JArr.acons v (.acons v2 a2), rest)
      rw [show dumpsArrMore (.acons v2 a2)
            = ',' :: (dumpsVal v2 ++ dumpsArrMore a2) from rfl,
          List.cons_append, skipWs_cons_not (by decide)]
      try simp +decide only []
      rw [List.append_assoc, skipWs_dumps v2 _, ← List.append_assoc,
          ← show dumpsArr (.acons v2 a2) = dumpsVal v2 ++ dumpsArrMore a2 from rfl]
      rw [rt_arr fuel v2 a2 rest hlt2]
      simp
  termination_by fuel _ _ _ _ => fuel

theorem rt_obj : ∀ (fuel : Nat) (k : List Char) (v : JVal) (o : JObj) (rest : List Char),
    (dumpsObj (.ocons k v o)).length < fuel →
    parseObj fuel (dumpsObj (.ocons k v o) ++ rest) = some (.ocons k v o, rest)
  | 0, _, _, _, _, hf => absurd hf (Nat.not_lt_zero _)
  | fuel + 1, k, v, o, rest, hf => by
    have hlen : (dumpsObj (.ocons k v o)).length
        = 1 + (escChars k).length + 2 + (dumpsVal v).length + (dumpsObjMore o).length := by
      simp [dumpsObj, List.length_append, List.length_cons]
      omega
    have hmore := dumpsObjMore_pos o
    have hlenv : (dumpsVal v).length < fuel := by omega
    show parseObj (fuel + 1)
          (('"' :: (escChars k ++ ('"' :: ':' :: (dumpsVal v ++ dumpsObjMore o)))) ++ rest)
        = some (.ocons k v o, rest)
    simp only [parseObj, List.cons_append]
    try simp +decide only []
    rw [List.append_assoc, List.cons_append, readStr_escChars]
    try simp +decide only []
    rw [List.cons_append, skipWs_cons_not (by decide)]
    try simp +decide only []
    rw [List.append_assoc, skipWs_dumps v _, rt_val fuel v _ hlenv (stopCh_objMore o rest)]
    cases o with
    | onil =>
      show (match skipWs ((['}'] : List Char) ++ rest) with
            | [] => none
            | c :: r2 =>
              if c = ',' then
                match parseObj fuel (skipWs r2) with
                | some (o, r3) => some (JObj.ocons k v o, r3)
                | none => none
              else if c = '}' then some (JObj.ocons k v .onil, r2)
              else none)
          = some (JObj.ocons k v .onil, rest)
      rw [List.singleton_append, skipWs_cons_not (by decide)]
      simp +decide
    | ocons k2 v2 o2 =>
      have hlt2 : (dumpsObj (.ocons k2 v2 o2)).length < fuel := by
        have h2 : (dumpsObjMore (.ocons k2 v2 o2)).length
            = 1 + (dumpsObj (.ocons k2 v2 o2)).length := by
          simp [dumpsObjMore, dumpsObj, List.length_append, List.length_cons]
          omega
        omega
      show (match skipWs (dumpsObjMore (.ocons k2 v2 o2) ++ rest) with
            | [] => none
            | c :: r2 =>
              if c = ',' then
                match parseObj fuel (skipWs r2) with
                | some (o, r3) => some (JObj.ocons k v o, r3)
                | none => none
              else if c = '}' then some (JObj.ocons k v .onil, r2)
              else none)
          = some (JObj.ocons k v (.ocons k2 v2 o2), rest)
      rw [show dumpsObjMore (.ocons k2 v2 o2)
            = ',' :: dumpsObj (.ocons k2 v2 o2) from rfl,
          List.cons_append, skipWs_cons_not (by decide)]
      try simp +decide only []
      rw [show dumpsObj (.ocons k2 v2 o2)
            = '"' :: (escChars k2 ++ ('"' :: ':' :: (dumpsVal v2 ++ dumpsObjMore o2))) from rfl,
          List.cons_append, skipWs_cons_not (by decide),
          ← List.cons_append,
          ← show dumpsObj (.ocons k2 v2 o2)
              = '"' :: (escChars k2 ++ ('"' :: ':' :: (dumpsVal v2 ++ dumpsObjMore o2))) from rfl]
      rw [rt_obj fuel k2 v2 o2 rest hlt2]
      simp
  termination_by fuel _ _ _ _ _ => fuel

end

/-- The codec round trip: parsing a serialised value yields it back. -/
theorem json_loads_dumps (v : JVal) : json_loads (dumpsVal v) = some v := by
  have h := rt_val ((dumpsVal v).length + 1) v [] (by omega) rfl
  rw [List.append_nil] at h
  rw [json_loads, h]
  rfl

/-! ## Helper lemmas: lookup, validation and pipeline shape -/

theorem lookLast_snoc_ne : ∀ (o : JObj) (k : List Char) (v : JVal) (k2 : List Char),
    k2 ≠ k → (o.snoc k v).lookLast k2 = o.lookLast k2
  | .onil, k, v, k2, hne => by
    simp only [JObj.snoc, JObj.lookLast]
    rw [if_neg fun h => hne h.symm]
  | .ocons k3 v3 r, k, v, k2, hne => by
    simp only [JObj.snoc, JObj.lookLast]
    rw [lookLast_snoc_ne r k v k2 hne]

theorem strElems_inv : ∀ (a : JArr) (ss : List (List Char)),
    strElems a = some ss → jArrOfStrs ss = a
  | .anil, ss, h => by
    simp only [strElems, Option.some.injEq] at h
    subst h
    rfl
  | .acons v r, ss, h => by
    cases v with
    | jstr s =>
      simp only [strElems] at h
      cases hr : strElems r with
      | none => rw [hr] at h; simp at h
      | some ss2 =>
        rw [hr] at h
        simp at h
        subst h
        simp only [jArrOfStrs]
        rw [strElems_inv r ss2 hr]
    | jnull => simp [strElems] at h
    | jbool b => simp [strElems] at h
    | jnum n => simp [strElems] at h
    | jarr a2 => simp [strElems] at h
    | jobj m => simp [strElems] at h

theorem username_inv (o : JObj) (w : JVal) (u : List Char)
    (hw : o.lookLast (s2c "username") = some w) (h : usernameField o = some u) :
    JVal.jstr u = w := by
  rw [usernameField, hw] at h
  cases w with
  | jstr s => simp only [Option.some.injEq] at h; subst h; rfl
  | jnull => simp at h
  | jbool b => simp at h
  | jnum n => simp at h
  | jarr a => simp at h
  | jobj m => simp at h

theorem optStr_inv (o : JObj) (k : List Char) (w : JVal) (x : Option (List Char))
    (hw : o.lookLast k = some w) (h : optStrField o k = some x) :
    jOfOptStr x = w := by
  rw [optStrField, hw] at h
  cases w with
  | jnull => simp only [Option.some.injEq] at h; subst h; rfl
  | jstr s => simp only [Option.some.injEq] at h; subst h; rfl
  | jbool b => simp at h
  | jnum n => simp at h
  | jarr a => simp at h
  | jobj m => simp at h

theorem optInt_inv (o : JObj) (k : List Char) (w : JVal) (x : Option Int)
    (hw : o.lookLast k = some w) (h : optIntField o k = some x)
    (hns : ∀ s, w ≠ JVal.jstr s) :
    jOfOptInt x = w := by
  rw [optIntField, hw] at h
  cases w with
  | jnull => simp only [Option.some.injEq] at h; subst h; rfl
  | jnum n => simp only [Option.some.injEq] at h; subst h; rfl
  | jbool b => simp at h
  | jstr s => exact absurd rfl (hns s)
  | jarr a => simp at h
  | jobj m => simp at h

theorem notStrAt_spec (o : JObj) (k : List Char) (h : notStrAt o k = true)
    (w : JVal) (hw : o.lookLast k = some w) : ∀ s, w ≠ JVal.jstr s := by
  intro s hws
  subst hws
  simp [notStrAt, hw] at h

theorem strList_inv (o : JObj) (k : List Char) (w : JVal) (xs : List (List Char))
    (hw : o.lookLast k = some w) (h : strListField o k = some xs) :
    JVal.jarr (jArrOfStrs xs) = w := by
  rw [strListField, hw] at h
  cases w with
  | jarr a => rw [strElems_inv a xs h]
  | jnull => simp at h
  | jbool b => simp at h
  | jnum n => simp at h
  | jstr s => simp at h
  | jobj m => simp at h

theorem dict_inv (o : JObj) (k : List Char) (w : JVal) (m : JObj)
    (hw : o.lookLast k = some w) (h : dictField o k = some m) :
    JVal.jobj m = w := by
  rw [dictField, hw] at h
  cases w with
  | jobj m2 => simp only [Option.some.injEq] at h; subst h; rfl
  | jnull => simp at h
  | jbool b => simp at h
  | jnum n => simp at h
  | jstr s => simp at h
  | jarr a => simp at h

theorem toDict_look (p : GFGProfile) :
    (p.toDict).lookLast (s2c "username") = some (.jstr p.username) ∧
    (p.toDict).lookLast (s2c "display_name") = some (jOfOptStr p.display_name) ∧
    (p.toDict).lookLast (s2c "about") = some (jOfOptStr p.about) ∧
    (p.toDict).lookLast (s2c "reputation") = some (jOfOptStr p.reputation) ∧
    (p.toDict).lookLast (s2c "followers") = some (jOfOptInt p.followers) ∧
    (p.toDict).lookLast (s2c "following") = some (jOfOptInt p.following) ∧
    (p.toDict).lookLast (s2c "problems_solved") = some (jOfOptInt p.problems_solved) ∧
    (p.toDict).lookLast (s2c "articles_count") = some (jOfOptInt p.articles_count) ∧
    (p.toDict).lookLast (s2c "badges") = some (.jarr (jArrOfStrs p.badges)) ∧
    (p.toDict).lookLast (s2c "top_skills") = some (.jarr (jArrOfStrs p.top_skills)) ∧
    (p.toDict).lookLast (s2c "raw_extracted") = some (.jobj p.raw_extracted) := by
  refine ⟨?_, ?_, ?_, ?_, ?_, ?_, ?_, ?_, ?_, ?_, ?_⟩ <;>
    simp +decide [GFGProfile.toDict, JObj.lookLast]

theorem fetch_all_non200 : ∀ (outs : List HttpOutcome),
    (∀ o ∈ outs, ∃ c s, o = .response c s ∧ c ≠ 200) →
    fetch_gfg_profile outs = .ok none
  | [], _ => rfl
  | o :: rest, h => by
    obtain ⟨c, s, rfl, hc⟩ := h o (by simp)
    simp only [fetch_gfg_profile]
    rw [if_neg hc]
    exact fetch_all_non200 rest fun o2 ho2 => h o2 (by simp [ho2])

theorem gfg_shape (env : Env) (fs : Option (List Char)) :
    (∃ p : GFGProfile,
      gfg_to_json env fs = (some (dumpsVal (.jobj p.toDict)), .ok p.toDict)) ∨
    (∃ e, gfg_to_json env fs = (none, .error e)) := by
  simp only [gfg_to_json]
  repeat' split
  all_goals first
    | (right; exact ⟨_, rfl⟩)
    | (left; exact ⟨_, rfl⟩)

theorem gfg_success_writes (env : Env) (fs fs2 : Option (List Char)) (r : JObj)
    (h : gfg_to_json env fs = (fs2, .ok r)) : fs2 = some (dumpsVal (.jobj r)) := by
  rcases gfg_shape env fs with ⟨p, hp⟩ | ⟨e, he⟩
  · rw [hp] at h
    simp only [Prod.mk.injEq, Except.ok.injEq] at h
    obtain ⟨h1, h2⟩ := h
    rw [← h1, h2]
  · rw [he] at h
    simp at h

theorem firstIdx_not_mem (c : Char) : ∀ (l : List Char), c ∉ l → firstIdxOf c l = none
  | [], _ => rfl
  | a :: t, h => by
    simp only [firstIdxOf]
    rw [if_neg fun e => h (by rw [← e]; exact List.mem_cons_self a t),
        firstIdx_not_mem c t fun hm => h (List.mem_cons_of_mem a hm)]
    rfl

theorem firstIdx_append_none (c : Char) : ∀ (l1 l2 : List Char), c ∉ l1 →
    firstIdxOf c (l1 ++ l2) = (firstIdxOf c l2).map (· + l1.length)
  | [], l2, _ => by simp
  | a :: t, l2, h => by
    simp only [List.cons_append, firstIdxOf, List.append_eq]
    rw [if_neg fun e => h (by rw [← e]; exact List.mem_cons_self a t),
        firstIdx_append_none c t l2 fun hm => h (List.mem_cons_of_mem a hm)]
    cases firstIdxOf c l2 <;> simp <;> omega

theorem braceScan_embed (pre obj post : List Char)
    (hpre : '{' ∉ pre) (hpost : '}' ∉ post)
    (hhead : ∃ t, obj = '{' :: t) (hlast : ∃ t2, obj.reverse = '}' :: t2)
    (hlen : 2 ≤ obj.length) :
    braceScan (pre ++ obj ++ post) = some obj := by
  obtain ⟨t, rfl⟩ := hhead
  obtain ⟨t2, hrev⟩ := hlast
  have hlen2 : 1 ≤ t.length := by simp at hlen; omega
  have hfst : firstIdxOf '{' ((pre ++ ('{' :: t)) ++ post) = some pre.length := by
    rw [List.append_assoc, firstIdx_append_none _ _ _ hpre]
    simp [firstIdxOf]
  have hpost2 : '}' ∉ post.reverse := by simpa using hpost
  have hlst : lastIdxOf '}' ((pre ++ ('{' :: t)) ++ post)
      = some (pre.length + t.length) := by
    simp only [lastIdxOf]
    rw [List.reverse_append, List.reverse_append, hrev,
        firstIdx_append_none _ _ _ hpost2]
    simp +decide [firstIdxOf, List.length_append, List.length_reverse, List.length_cons]
    omega
  simp only [braceScan, hfst, hlst]
  rw [if_pos (by omega)]
  rw [List.append_assoc, List.drop_left]
  have harith : pre.length + t.length - pre.length + 1 = ('{' :: t).length := by
    simp only [List.length_cons]
    omega
  rw [harith, List.take_left]

theorem optInt_shape (o : JObj) (k : List Char) (x : Option Int)
    (h : optIntField o k = some x) :
    ∀ w, o.lookLast k = some w →
      (w = .jnull ∧ x = none) ∨ (∃ n : Int, w = .jnum n ∧ x = some n) ∨
      (∃ s n, w = .jstr s ∧ strToInt s = some n ∧ x = some n) := by
  intro w hw
  rw [optIntField, hw] at h
  cases w with
  | jnull =>
    simp only [Option.some.injEq] at h
    exact Or.inl ⟨rfl, h.symm⟩
  | jnum n =>
    simp only [Option.some.injEq] at h
    exact Or.inr (Or.inl ⟨n, rfl, h.symm⟩)
  | jbool b => simp at h
  | jstr s =>
    cases hs : strToInt s with
    | none => simp [hs] at h
    | some n =>
      simp only [hs, Option.some.injEq] at h
      exact Or.inr (Or.inr ⟨s, n, rfl, hs, h.symm⟩)
  | jarr a => simp at h
  | jobj m => simp at h

theorem strList_shape (o : JObj) (k : List Char) (xs : List (List Char))
    (h : strListField o k = some xs) :
    ∀ w, o.lookLast k = some w → ∃ ss, w = .jarr (jArrOfStrs ss) ∧ xs = ss := by
  intro w hw
  rw [strListField, hw] at h
  cases w with
  | jarr a => exact ⟨xs, by rw [strElems_inv a xs h], rfl⟩
  | jnull => simp at h
  | jbool b => simp at h
  | jnum n => simp at h
  | jstr s => simp at h
  | jobj m => simp at h

/-! ## The claims -/

/-- C1 (counterexample): a model response whose parsed mapping carries the
extra top-level key contest_rating passes validation, the run succeeds,
the output file is written, and the extra key is silently dropped from the
result — the rejection the claim states does not happen. -/
theorem C1_counterexample :
    (gfg_to_json ⟨[okOutcome], extraKeyResp⟩ (some (s2c "old"))).2.toOption.isSome = true ∧
    (gfg_to_json ⟨[okOutcome], extraKeyResp⟩ (some (s2c "old"))).1.isSome = true ∧
    ((gfg_to_json ⟨[okOutcome], extraKeyResp⟩ (some (s2c "old"))).2.toOption.bind
      fun d => d.lookLast (s2c "contest_rating")) = none :=
  ⟨rfl, rfl, rfl⟩

/-- C1 (amended): an extra top-level key outside the schema is silently
ignored by `GFGProfile(**parsed)` under the default pydantic
configuration: validation returns exactly what it returns without that
key, so the run is not rejected and the extra key never reaches the
output. -/
theorem C1_extra_key_ignored (o : JObj) (k : List Char) (v : JVal)
    (hk : k ∉ schemaKeys) :
    GFGProfile.validate (o.snoc k v) = GFGProfile.validate o := by
  have hlook : ∀ k2 ∈ schemaKeys, (o.snoc k v).lookLast k2 = o.lookLast k2 :=
    fun k2 hm => lookLast_snoc_ne o k v k2 fun he => hk (by rw [← he]; exact hm)
  have h1 : usernameField (o.snoc k v) = usernameField o := by
    rw [usernameField, usernameField, hlook _ (by simp [schemaKeys])]
  have h2 : optStrField (o.snoc k v) (s2c "display_name")
      = optStrField o (s2c "display_name") := by
    rw [optStrField, optStrField, hlook _ (by simp [schemaKeys])]
  have h3 : optStrField (o.snoc k v) (s2c "about") = optStrField o (s2c "about") := by
    rw [optStrField, optStrField, hlook _ (by simp [schemaKeys])]
  have h4 : optStrField (o.snoc k v) (s2c "reputation")
      = optStrField o (s2c "reputation") := by
    rw [optStrField, optStrField, hlook _ (by simp [schemaKeys])]
  have h5 : optIntField (o.snoc k v) (s2c "followers")
      = optIntField o (s2c "followers") := by
    rw [optIntField, optIntField, hlook _ (by simp [schemaKeys])]
  have h6 : optIntField (o.snoc k v) (s2c "following")
      = optIntField o (s2c "following") := by
    rw [optIntField, optIntField, hlook _ (by simp [schemaKeys])]
  have h7 : optIntField (o.snoc k v) (s2c "problems_solved")
      = optIntField o (s2c "problems_solved") := by
    rw [optIntField, optIntField, hlook _ (by simp [schemaKeys])]
  have h8 : optIntField (o.snoc k v) (s2c "articles_count")
      = optIntField o (s2c "articles_count") := by
    rw [optIntField, optIntField, hlook _ (by simp [schemaKeys])]
  have h9 : strListField (o.snoc k v) (s2c "badges") = strListField o (s2c "badges") := by
    rw [strListField, strListField, hlook _ (by simp [schemaKeys])]
  have h10 : strListField (o.snoc k v) (s2c "top_skills")
      = strListField o (s2c "top_skills") := by
    rw [strListField, strListField, hlook _ (by simp [schemaKeys])]
  have h11 : dictField (o.snoc k v) (s2c "raw_extracted")
      = dictField o (s2c "raw_extracted") := by
    rw [dictField, dictField, hlook _ (by simp [schemaKeys])]
  simp only [GFGProfile.validate, h1, h2, h3, h4, h5, h6, h7, h8, h9, h10, h11]

/-- C1 (witness): the amended theorem at a concrete mapping and a concrete
extra key. -/
theorem C1_extra_key_ignored_witness :
    GFGProfile.validate ((JObj.ocons (s2c "username") (.jstr (s2c "u")) .onil).snoc
        (s2c "contest_rating") (.jnum 5))
      = GFGProfile.validate (.ocons (s2c "username") (.jstr (s2c "u")) .onil) :=
  C1_extra_key_ignored _ _ _ (by decide)

/-- C2 (counterexample): validation accepts a mapping whose followers
value is the negative integer -5, so the claimed non-negativity invariant
does not hold for accepted profiles. -/
theorem C2_counterexample :
    (GFGProfile.validate negFollowersObj).map (fun p => p.followers)
      = some (some (-5)) ∧ (-5 : Int) < 0 :=
  ⟨rfl, by decide⟩

/-- C2 (amended): for every mapping accepted by validation, each numeric
field of the constructed Profile instance, if present (non-null), is an
integer — its sign is unconstrained, so the claimed non-negativity is
not enforced, and under pydantic's default lax validation the integer
may have been coerced from a decimal string in the response — and each
list field of the instance contains only strings, exactly the strings
supplied. -/
theorem C2_accepted_shapes (o : JObj) (p : GFGProfile)
    (hv : GFGProfile.validate o = some p) :
    (∀ w, o.lookLast (s2c "followers") = some w →
      (w = .jnull ∧ p.followers = none) ∨
      (∃ n : Int, w = .jnum n ∧ p.followers = some n) ∨
      (∃ s n, w = .jstr s ∧ strToInt s = some n ∧ p.followers = some n)) ∧
    (∀ w, o.lookLast (s2c "following") = some w →
      (w = .jnull ∧ p.following = none) ∨
      (∃ n : Int, w = .jnum n ∧ p.following = some n) ∨
      (∃ s n, w = .jstr s ∧ strToInt s = some n ∧ p.following = some n)) ∧
    (∀ w, o.lookLast (s2c "problems_solved") = some w →
      (w = .jnull ∧ p.problems_solved = none) ∨
      (∃ n : Int, w = .jnum n ∧ p.problems_solved = some n) ∨
      (∃ s n, w = .jstr s ∧ strToInt s = some n ∧ p.problems_solved = some n)) ∧
    (∀ w, o.lookLast (s2c "articles_count") = some w →
      (w = .jnull ∧ p.articles_count = none) ∨
      (∃ n : Int, w = .jnum n ∧ p.articles_count = some n) ∨
      (∃ s n, w = .jstr s ∧ strToInt s = some n ∧ p.articles_count = some n)) ∧
    (∀ w, o.lookLast (s2c "badges") = some w →
      ∃ ss, w = .jarr (jArrOfStrs ss) ∧ p.badges = ss) ∧
    (∀ w, o.lookLast (s2c "top_skills") = some w →
      ∃ ss, w = .jarr (jArrOfStrs ss) ∧ p.top_skills = ss) := by
  simp only [GFGProfile.validate] at hv
  split at hv
  · rename_i u dn ab rep fo fg ps ac bd ts raw h1 h2 h3 h4 h5 h6 h7 h8 h9 h10 h11
    simp only [Option.some.injEq] at hv
    subst hv
    exact ⟨optInt_shape o _ _ h5, optInt_shape o _ _ h6, optInt_shape o _ _ h7,
           optInt_shape o _ _ h8, strList_shape o _ _ h9, strList_shape o _ _ h10⟩
  · exact absurd hv (by simp)

/-- C2 (witness): the amended theorem at the mapping whose followers
value is the decimal string "5": the lax validation accepts it and the
instance field holds the coerced integer 5. -/
theorem C2_accepted_shapes_witness :
    (JVal.jstr (s2c "5") = JVal.jnull ∧ coercedFollowersProfile.followers = none) ∨
    (∃ n : Int, JVal.jstr (s2c "5") = JVal.jnum n
      ∧ coercedFollowersProfile.followers = some n) ∨
    (∃ s n, JVal.jstr (s2c "5") = JVal.jstr s ∧ strToInt s = some n
      ∧ coercedFollowersProfile.followers = some n) :=
  (C2_accepted_shapes coercedFollowersObj coercedFollowersProfile rfl).1
    (.jstr (s2c "5")) rfl

/-- C3 (counterexample): when the first URL raises a network error the run
ends with the uncaught transport exception, not the claimed
"profile not found or private" ValueError. -/
theorem C3_counterexample :
    gfg_to_json ⟨[.failure, .response 404 emptySoup], s2c "irrelevant"⟩ (some (s2c "old"))
      = (none, .error .transport) := rfl

/-- C3 (amended): when every fetch URL returns a non-200 status (no
transport exception is raised), the run fails with the not-found
ValueError and no file is written. -/
theorem C3_non200_not_found (env : Env) (fs : Option (List Char))
    (h : ∀ o ∈ env.outcomes, ∃ c s, o = .response c s ∧ c ≠ 200) :
    gfg_to_json env fs = (none, .error .notFound) := by
  simp only [gfg_to_json, fetch_all_non200 env.outcomes h]

/-- C3 (witness): the amended theorem with both URLs returning 404. -/
theorem C3_non200_not_found_witness :
    gfg_to_json ⟨[.response 404 emptySoup, .response 404 emptySoup], s2c "x"⟩ none
      = (none, .error .notFound) :=
  C3_non200_not_found _ _ (by
    intro o ho
    rcases List.mem_cons.mp ho with rfl | ho2
    · exact ⟨404, emptySoup, rfl, by decide⟩
    · rcases List.mem_cons.mp ho2 with rfl | h3
      · exact ⟨404, emptySoup, rfl, by decide⟩
      · simp at h3)

/-- C4 (counterexample): a page whose only selector hit is one skill
element with empty stripped text satisfies the hypotheses of the claim (no
name or about selector match, no counter match, no badge or skill element
yielding non-empty text), yet the extractor output contains the top_skills
key with a non-null list value, not only the raw-text key. -/
theorem C4_counterexample :
    (emptySkillSoup.skillSel.filter fun t => !t.isEmpty) = [] ∧
    parse_profile_html emptySkillSoup
      = .ok [(s2c "followers", .pnum none), (s2c "following", .pnum none),
             (s2c "problems_solved", .pnum none), (s2c "articles_count", .pnum none),
             (s2c "top_skills", .plist [[]]),
             (s2c "raw_text_snippet", .pstr [])] :=
  ⟨rfl, rfl⟩

/-- C4 (amended): when no name or about selector matches, no counter
pattern matches, every badge text is empty after stripping, and the skill
selectors match no element at all, the extractor never throws and returns
exactly the four counters as null plus the raw-text snippet. -/
theorem C4_only_raw_text (soup : Soup)
    (hname : soup.nameSel = []) (habout : soup.aboutSel = [])
    (hfo : scanNum followersPats soup.text = none)
    (hfg : scanNum followingPats soup.text = none)
    (hps : scanNum problemsPats soup.text = none)
    (hac : scanNum articlesPats soup.text = none)
    (hbadge : soup.badgeSel.filter (fun t => !t.isEmpty) = [])
    (hskill : soup.skillSel = []) :
    parse_profile_html soup
      = .ok [(s2c "followers", .pnum none), (s2c "following", .pnum none),
             (s2c "problems_solved", .pnum none), (s2c "articles_count", .pnum none),
             (s2c "raw_text_snippet", .pstr (soup.text.take 2000))] := by
  simp [parse_profile_html, grab_num, hname, habout, hfo, hfg, hps, hac, hbadge, hskill]
  rfl

/-- C4 (witness): the amended theorem at the page with no matches at all. -/
theorem C4_only_raw_text_witness :
    parse_profile_html emptySoup
      = .ok [(s2c "followers", .pnum none), (s2c "following", .pnum none),
             (s2c "problems_solved", .pnum none), (s2c "articles_count", .pnum none),
             (s2c "raw_text_snippet", .pstr [])] :=
  C4_only_raw_text emptySoup rfl rfl rfl rfl rfl rfl rfl rfl

/-- C5 (counterexample): a response that embeds a valid JSON object in
prose but has one more closing brace later in the prose: the greedy scan
grabs up to that last closing brace, the grabbed span fails to parse, and
the run fails instead of proceeding to validation. -/
theorem C5_counterexample :
    s2c "x " ++ s2c "\x7b\"a\": 1\x7d" ++ s2c " y\x7d" = strayBraceResp ∧
    json_loads (s2c "\x7b\"a\": 1\x7d") = some (.jobj (.ocons (s2c "a") (.jnum 1) .onil)) ∧
    json_loads strayBraceResp = none ∧
    interpretResponse strayBraceResp = .error .decodeFailure :=
  ⟨rfl, rfl, rfl, rfl⟩

/-- C5 (amended): when the response is not directly parseable and embeds a
valid JSON object whose surrounding prose has no opening brace before it
and no closing brace after it, the greedy multi-line brace scan extracts
exactly the object, it parses, and the run proceeds to validation with its
value. -/
theorem C5_prose_wrapped (pre obj post : List Char) (v : JVal)
    (hdirect : json_loads (pre ++ obj ++ post) = none)
    (hpre : '{' ∉ pre) (hpost : '}' ∉ post)
    (hhead : obj.head? = some '{') (hlast : obj.getLast? = some '}')
    (hobj : json_loads obj = some v) :
    interpretResponse (pre ++ obj ++ post) = .ok v := by
  obtain ⟨t, rfl⟩ : ∃ t, obj = '{' :: t := by
    cases obj with
    | nil => simp at hhead
    | cons c t =>
      simp only [List.head?_cons, Option.some.injEq] at hhead
      exact ⟨t, by rw [hhead]⟩
  have hlast2 : ∃ t2, ('{' :: t).reverse = '}' :: t2 := by
    cases hrv : ('{' :: t).reverse with
    | nil => simp at hrv
    | cons c t2 =>
      have hc : ('{' :: t).getLast? = some c := by
        rw [← List.head?_reverse, hrv]
        rfl
      rw [hlast] at hc
      simp only [Option.some.injEq] at hc
      subst hc
      exact ⟨t2, rfl⟩
  have hlen : 2 ≤ ('{' :: t).length := by
    cases t with
    | nil => simp +decide at hlast
    | cons a t3 =>
      simp only [List.length_cons]
      omega
  simp only [interpretResponse, hdirect,
    braceScan_embed pre _ post hpre hpost ⟨t, rfl⟩ hlast2 hlen, hobj]

/-- C5 (witness): the amended theorem on a concrete prose-wrapped
response. -/
theorem C5_prose_wrapped_witness :
    interpretResponse (s2c "Result: " ++ s2c "\x7b\"a\": 1\x7d" ++ s2c " Thanks!")
      = .ok (.jobj (.ocons (s2c "a") (.jnum 1) .onil)) :=
  C5_prose_wrapped _ _ _ _ (by rfl) (by decide) (by decide) (by rfl) (by rfl) (by rfl)

/-- C6 (counterexample): a response whose brace span exists but is not
valid JSON: both the direct parse and the fallback fail to produce a
value, yet the run fails with the bare JSON decode error, not with the
claimed "invalid JSON from model" ValueError carrying the raw response
text. -/
theorem C6_counterexample :
    json_loads badSpanResp = none ∧
    braceScan badSpanResp = some badSpanResp ∧
    gfg_to_json ⟨[okOutcome], badSpanResp⟩ (some (s2c "old"))
      = (none, .error .decodeFailure) :=
  ⟨rfl, rfl, rfl⟩

/-- C6 (amended): when the fetch succeeds, the extractor does not throw,
direct parsing fails and the response contains no extractable brace span
at all, the run fails with the ValueError that carries the full raw
response text, and no file is written. -/
theorem C6_no_span_invalid_json (env : Env) (fs : Option (List Char))
    (soup : Soup) (d : List (List Char × PVal))
    (hfetch : fetch_gfg_profile env.outcomes = .ok (some soup))
    (hparse : parse_profile_html soup = .ok d)
    (hdirect : json_loads env.modelResponse = none)
    (hscan : braceScan env.modelResponse = none) :
    gfg_to_json env fs = (none, .error (.invalidModelJson env.modelResponse)) := by
  simp only [gfg_to_json, hfetch, hparse, interpretResponse, hdirect, hscan]

/-- C6 (witness): the amended theorem on a response with no braces. -/
theorem C6_no_span_invalid_json_witness :
    gfg_to_json ⟨[okOutcome], s2c "no braces at all"⟩ none
      = (none, .error (.invalidModelJson (s2c "no braces at all"))) :=
  C6_no_span_invalid_json _ _ emptySoup
    [(s2c "followers", .pnum none), (s2c "following", .pnum none),
     (s2c "problems_solved", .pnum none), (s2c "articles_count", .pnum none),
     (s2c "raw_text_snippet", .pstr [])] rfl rfl rfl rfl

/-- C7 (counterexample): the regular-expression search takes the leftmost
match, so a visible text that contains "Followers: 12,345" after an
earlier followers match yields the earlier value 2, not 12345. -/
theorem C7_counterexample :
    s2c "Followers: 2 " ++ s2c "Followers: 12,345" = twoFollowersText ∧
    grab_num followersPats twoFollowersText = .ok (some 2) ∧ (2 : Nat) ≠ 12345 :=
  ⟨rfl, rfl, by decide⟩

/-- C7 (amended): numeric extraction uses the leftmost match.  When the
text starts with the label-prefixed separated group "12,345" and the next
character cannot extend the group, the commas are stripped before integer
conversion and the result is 12345; and each counter search returns null
whenever its pattern has no match anywhere in the text. -/
theorem C7_comma_stripping :
    (∀ post : List Char, numStop post = true →
      grab_num followersPats (s2c "Followers: 12,345" ++ post) = .ok (some 12345)) ∧
    (∀ (alts : List (List Char)) (text : List Char), scanNum alts text = none →
      grab_num alts text = .ok none) := by
  constructor
  · intro post hpost
    have hpw : List.takeWhile isNumCh post = [] := by
      cases post with
      | nil => rfl
      | cons c t =>
        simp only [numStop, Bool.not_eq_true'] at hpost
        simp [List.takeWhile_cons, hpost]
    rw [show s2c "Followers: 12,345"
        = ['F', 'o', 'l', 'l', 'o', 'w', 'e', 'r', 's', ':', ' ',
           '1', '2', ',', '3', '4', '5'] from rfl]
    simp +decide [grab_num, scanNum, tryAlts, tryOne, stripLabel, followersPats,
      isSepCh, isNumCh, isDigitCh, hpw, charsToNat, digitVal,
      List.takeWhile_cons, List.dropWhile_cons]
  · intro alts text h
    simp [grab_num, h]

/-- C7 (witness): the amended theorem at the empty remainder and at a text
with no match. -/
theorem C7_comma_stripping_witness :
    grab_num followersPats (s2c "Followers: 12,345" ++ []) = .ok (some 12345) ∧
    grab_num followersPats (s2c "zzz") = .ok none :=
  ⟨C7_comma_stripping.1 [] rfl, C7_comma_stripping.2 followersPats (s2c "zzz") rfl⟩

/-- C8: after two consecutive successful runs at the same output path, the
file holds exactly the serialisation of the second run's validated dict:
the pre-existing file is deleted and fully overwritten, so no key or value
of the first run's output survives. -/
theorem C8_second_run_overwrites (env1 env2 : Env) (fs0 fs1 fs2 : Option (List Char))
    (r1 r2 : JObj)
    (h1 : gfg_to_json env1 fs0 = (fs1, .ok r1))
    (h2 : gfg_to_json env2 fs1 = (fs2, .ok r2)) :
    fs2 = some (dumpsVal (.jobj r2)) :=
  gfg_success_writes env2 fs1 fs2 r2 h2

/-- C8 (witness): two concrete successful runs with different usernames;
after the second the file holds only the second serialisation. -/
theorem C8_second_run_overwrites_witness :
    (gfg_to_json ⟨[okOutcome], c8RespB⟩ (some (dumpsVal (.jobj c8ProfileA.toDict)))).1
      = some (dumpsVal (.jobj c8ProfileB.toDict)) :=
  C8_second_run_overwrites ⟨[okOutcome], c8RespA⟩ ⟨[okOutcome], c8RespB⟩ none
    (some (dumpsVal (.jobj c8ProfileA.toDict)))
    (gfg_to_json ⟨[okOutcome], c8RespB⟩ (some (dumpsVal (.jobj c8ProfileA.toDict)))).1
    c8ProfileA.toDict c8ProfileB.toDict (by rfl) (by rfl)

/-- C9: a model response that parses to a mapping conforming exactly to
the schema — validation accepts it, every schema key is present, and the
numeric fields hold literal integers or null, not the coercible decimal
strings that lax validation would also accept (coercion alters such a
value, so a mapping carrying one does not conform exactly) — yields a
Profile whose serialised dict, re-parsed, is the dict itself, and whose
dict agrees with the original parsed response on every schema field. -/
theorem C9_round_trip (resp : List Char) (kvs : JObj) (p : GFGProfile)
    (hresp : json_loads resp = some (.jobj kvs))
    (hv : GFGProfile.validate kvs = some p)
    (hfull : ∀ k ∈ schemaKeys, (kvs.lookLast k).isSome = true)
    (hexact : ∀ k ∈ [s2c "followers", s2c "following",
      s2c "problems_solved", s2c "articles_count"], notStrAt kvs k = true) :
    json_loads (dumpsVal (.jobj p.toDict)) = some (.jobj p.toDict) ∧
    ∀ k ∈ schemaKeys, (p.toDict).lookLast k = kvs.lookLast k := by
  refine ⟨json_loads_dumps _, ?_⟩
  simp only [GFGProfile.validate] at hv
  split at hv
  · rename_i u dn ab rep fo fg ps ac bd ts raw h1 h2 h3 h4 h5 h6 h7 h8 h9 h10 h11
    simp only [Option.some.injEq] at hv
    subst hv
    obtain ⟨l1, l2, l3, l4, l5, l6, l7, l8, l9, l10, l11⟩ :=
      toDict_look ⟨u, dn, ab, rep, fo, fg, ps, ac, bd, ts, raw⟩
    intro k hk
    simp only [schemaKeys, List.mem_cons, List.not_mem_nil, or_false] at hk
    rcases hk with rfl | rfl | rfl | rfl | rfl | rfl | rfl | rfl | rfl | rfl | rfl
    · rw [l1]
      cases hw : kvs.lookLast (s2c "username") with
      | none =>
        have hh := hfull (s2c "username") (by simp [schemaKeys])
        rw [hw] at hh
        simp at hh
      | some w => exact congrArg some (username_inv kvs w u hw h1)
    · rw [l2]
      cases hw : kvs.lookLast (s2c "display_name") with
      | none =>
        have hh := hfull (s2c "display_name") (by simp [schemaKeys])
        rw [hw] at hh
        simp at hh
      | some w => exact congrArg some (optStr_inv kvs _ w dn hw h2)
    · rw [l3]
      cases hw : kvs.lookLast (s2c "about") with
      | none =>
        have hh := hfull (s2c "about") (by simp [schemaKeys])
        rw [hw] at hh
        simp at hh
      | some w => exact congrArg some (optStr_inv kvs _ w ab hw h3)
    · rw [l4]
      cases hw : kvs.lookLast (s2c "reputation") with
      | none =>
        have hh := hfull (s2c "reputation") (by simp [schemaKeys])
        rw [hw] at hh
        simp at hh
      | some w => exact congrArg some (optStr_inv kvs _ w rep hw h4)
    · rw [l5]
      cases hw : kvs.lookLast (s2c "followers") with
      | none =>
        have hh := hfull (s2c "followers") (by simp [schemaKeys])
        rw [hw] at hh
        simp at hh
      | some w => exact congrArg some (optInt_inv kvs _ w fo hw h5
          (notStrAt_spec kvs _ (hexact _ (by simp)) w hw))
    · rw [l6]
      cases hw : kvs.lookLast (s2c "following") with
      | none =>
        have hh := hfull (s2c "following") (by simp [schemaKeys])
        rw [hw] at hh
        simp at hh
      | some w => exact congrArg some (optInt_inv kvs _ w fg hw h6
          (notStrAt_spec kvs _ (hexact _ (by simp)) w hw))
    · rw [l7]
      cases hw : kvs.lookLast (s2c "problems_solved") with
      | none =>
        have hh := hfull (s2c "problems_solved") (by simp [schemaKeys])
        rw [hw] at hh
        simp at hh
      | some w => exact congrArg some (optInt_inv kvs _ w ps hw h7
          (notStrAt_spec kvs _ (hexact _ (by simp)) w hw))
    · rw [l8]
      cases hw : kvs.lookLast (s2c "articles_count") with
      | none =>
        have hh := hfull (s2c "articles_count") (by simp [schemaKeys])
        rw [hw] at hh
        simp at hh
      | some w => exact congrArg some (optInt_inv kvs _ w ac hw h8
          (notStrAt_spec kvs _ (hexact _ (by simp)) w hw))
    · rw [l9]
      cases hw : kvs.lookLast (s2c "badges") with
      | none =>
        have hh := hfull (s2c "badges") (by simp [schemaKeys])
        rw [hw] at hh
        simp at hh
      | some w => exact congrArg some (strList_inv kvs _ w bd hw h9)
    · rw [l10]
      cases hw : kvs.lookLast (s2c "top_skills") with
      | none =>
        have hh := hfull (s2c "top_skills") (by simp [schemaKeys])
        rw [hw] at hh
        simp at hh
      | some w => exact congrArg some (strList_inv kvs _ w ts hw h10)
    · rw [l11]
      cases hw : kvs.lookLast (s2c "raw_extracted") with
      | none =>
        have hh := hfull (s2c "raw_extracted") (by simp [schemaKeys])
        rw [hw] at hh
        simp at hh
      | some w => exact congrArg some (dict_inv kvs _ w raw hw h11)
  · exact absurd hv (by simp)

set_option maxRecDepth 10000 in
/-- C9 (witness): the round trip at a concrete full conforming response,
projected to the followers field. -/
theorem C9_round_trip_witness :
    json_loads (dumpsVal (.jobj fullProfile.toDict)) = some (.jobj fullProfile.toDict) ∧
    (fullProfile.toDict).lookLast (s2c "followers") = fullObj.lookLast (s2c "followers") :=
  ⟨(C9_round_trip fullResp fullObj fullProfile (by rfl) (by rfl) (by decide) (by decide)).1,
   (C9_round_trip fullResp fullObj fullProfile (by rfl) (by rfl) (by decide) (by decide)).2
     (s2c "followers") (by decide)⟩

/-- C10: the pre-existing file is deleted before the fetch is even
attempted, so after every failing run — transport error, not-found,
extractor error, model-JSON failure, non-mapping or validation failure —
no file exists at the output path. -/
theorem C10_failing_run_leaves_no_file (env : Env) (fs : Option (List Char))
    (e : RunError) (h : (gfg_to_json env fs).2 = .error e) :
    (gfg_to_json env fs).1 = none := by
  rcases gfg_shape env fs with ⟨p, hp⟩ | ⟨e2, he⟩
  · rw [hp] at h
    simp at h
  · rw [he]

/-- C10 (witness): a not-found run over a pre-existing file leaves no
file at the output path. -/
theorem C10_failing_run_leaves_no_file_witness :
    (gfg_to_json ⟨[.response 404 emptySoup, .response 404 emptySoup], s2c "x"⟩
      (some (s2c "old"))).1 = none :=
  C10_failing_run_leaves_no_file _ _ .notFound (by rfl)

end GFG
